import Mathlib

/-!
Verification of the conversational context and relevance-scoring engine of the
chat route (src/app/api/ai/chat/route.ts, latest revision).  The JavaScript
string and regex operations used by the route are embedded over `List Char`:

* `hasSubList` models `String.prototype.includes` (case-sensitive substring);
* `scanVocabAux` models `text.match(/\b(w1|w2|...)\b/gi)`: it walks the text
  and records, at every position that follows a non-word character (or the
  start), the first alternative that matches case-insensitively and is
  followed by a word boundary.  Because every vocabulary word starts and ends
  with word characters, word-boundary matches can never overlap, so walking
  one character at a time yields exactly the matches of the JavaScript
  global regex, in order;
* `scanYearsAux` does the same for the year pattern of the extractor;
* `anyBoundary` models a `.test(...)` of a word-boundary-anchored regex.

`Char.toLower` models `toLowerCase` and `\w` is `[A-Za-z0-9_]`; all the
vocabularies involved are ASCII, where the two agree with JavaScript.
-/

namespace ChatRoute

/-- The character class of the JavaScript word boundary `\b`: `[A-Za-z0-9_]`. -/
def wordChar (c : Char) : Bool := c.isAlphanum || c == '_'

/-- Case-insensitive "starts with" over character lists (regex alternatives are
matched with the `i` flag). -/
def ciStartsWith : List Char → List Char → Bool
  | _, [] => true
  | [], _ :: _ => false
  | a :: as, b :: bs => (a.toLower == b.toLower) && ciStartsWith as bs

/-- A word boundary holds after a match when the rest of the text is empty or
starts with a non-word character. -/
def boundAfter : List Char → Bool
  | [] => true
  | c :: _ => !wordChar c

/-- Exact (case-sensitive) prefix test over character lists. -/
def csStartsWith : List Char → List Char → Bool
  | _, [] => true
  | [], _ :: _ => false
  | a :: as, b :: bs => (a == b) && csStartsWith as bs

/-- Case-sensitive substring test over character lists:
`String.prototype.includes`. -/
def hasSubList (hay needle : List Char) : Bool :=
  match hay with
  | [] => needle.isEmpty
  | _ :: t => csStartsWith hay needle || hasSubList t needle

/-- `s.includes(sub)` on strings. -/
def hasSubStr (s sub : String) : Bool := hasSubList s.data sub.data

/-- `String.prototype.toLowerCase` (ASCII). -/
def strLower (s : String) : String := ⟨s.data.map Char.toLower⟩

/-- `String.prototype.split(' ')`: split at every single space, keeping empty
pieces (structural, so it evaluates definitionally). -/
def splitSpace : List Char → List (List Char)
  | [] => [[]]
  | c :: t =>
    if c = ' ' then [] :: splitSpace t
    else
      match splitSpace t with
      | [] => [[c]]
      | w :: ws => (c :: w) :: ws

/-- `String.prototype.trim` over characters (structural). -/
def trimChars (l : List Char) : List Char :=
  ((l.dropWhile Char.isWhitespace).reverse.dropWhile Char.isWhitespace).reverse

/-- At the current position, the first vocabulary alternative that matches
case-insensitively and is followed by a word boundary; returns the matched
slice of the original text (JavaScript `match` reports the original casing). -/
def matchVocabHere (vocab : List String) (l : List Char) : Option String :=
  vocab.findSome? fun p =>
    if ciStartsWith l p.data && boundAfter (l.drop p.data.length) then
      some ⟨l.take p.data.length⟩
    else none

/-- All word-boundary matches of the alternation `vocab`, left to right.
`prevW` says whether the previous character was a word character (so no
word boundary holds at the current position). -/
def scanVocabAux (vocab : List String) : Bool → List Char → List String
  | _, [] => []
  | prevW, c :: t =>
    match (if prevW then none else matchVocabHere vocab (c :: t)) with
    | some m => m :: scanVocabAux vocab (wordChar c) t
    | none => scanVocabAux vocab (wordChar c) t

/-- `text.match(/\b(...)\b/gi)` as a list (empty list for `null`). -/
def scanVocab (vocab : List String) (l : List Char) : List String :=
  scanVocabAux vocab false l

/-- `/\b(...)\b/i.test(text)`. -/
def hasVocab (vocab : List String) (l : List Char) : Bool :=
  !(scanVocab vocab l).isEmpty

/-- `text.match(/\b(...)\b/i)?.[0]`: the first match only. -/
def firstVocabMatch (vocab : List String) (s : String) : Option String :=
  (scanVocab vocab s.data).head?

/-- Existence of a position, preceded by a word boundary, where `p` holds of
the remaining text (used for `.test` of patterns that are not plain
alternations). -/
def anyBoundary (p : List Char → Bool) : Bool → List Char → Bool
  | _, [] => false
  | prevW, c :: t => (!prevW && p (c :: t)) || anyBoundary p (wordChar c) t

/-- ASCII digit, the regex class `\d`. -/
def isAsciiDigit (c : Char) : Bool :=
  ['0', '1', '2', '3', '4', '5', '6', '7', '8', '9'].contains c

/-- Numeric value of an ASCII digit. -/
def digitVal (c : Char) : Nat := c.toNat - 48

/-- The extractor's year pattern `\b(19[89]\d|20[0-2]\d)\b` at the current
position: the year's value if it matches (the leading boundary is checked by
the scanner). -/
def yearStrictHere : List Char → Option Nat
  | d1 :: d2 :: d3 :: d4 :: rest =>
    if ((d1 == '1' && d2 == '9' && (d3 == '8' || d3 == '9')) ||
        (d1 == '2' && d2 == '0' && (d3 == '0' || d3 == '1' || d3 == '2'))) &&
        isAsciiDigit d4 && boundAfter rest then
      some (1000 * digitVal d1 + 100 * digitVal d2 + 10 * digitVal d3 + digitVal d4)
    else none
  | _ => none

/-- All matches of the extractor's year regex, parsed (`match(...g)` followed
by `parseInt`). -/
def scanYearsAux : Bool → List Char → List Nat
  | _, [] => []
  | prevW, c :: t =>
    match (if prevW then none else yearStrictHere (c :: t)) with
    | some y => y :: scanYearsAux (wordChar c) t
    | none => scanYearsAux (wordChar c) t

def scanYears (l : List Char) : List Nat := scanYearsAux false l

/-- The looser year pattern `\b(19|20)\d{2}\b` used by the query classifier. -/
def looseYearHere : List Char → Bool
  | d1 :: d2 :: d3 :: d4 :: rest =>
    ((d1 == '1' && d2 == '9') || (d1 == '2' && d2 == '0')) &&
      isAsciiDigit d3 && isAsciiDigit d4 && boundAfter rest
  | _ => false

/-- `/\b(19|20)\d{2}\b/.test(s)`. -/
def hasLooseYear (s : String) : Bool := anyBoundary looseYearHere false s.data

/-- `Math.max(...)` over a list (`0` is never reached on the guarded path). -/
def listMax : List Nat → Nat
  | [] => 0
  | y :: ys => ys.foldl Nat.max y

/-- `Array.prototype.join(' ')` over character lists. -/
def joinSpace : List (List Char) → List Char
  | [] => []
  | [x] => x
  | x :: y :: ys => x ++ ' ' :: joinSpace (y :: ys)

/-! ## Data model (conversationMemory, SearchResult, and collaborator records) -/

/-- One entry of a ConversationRecord's `messages` array. -/
structure Msg where
  role : String
  content : String
  timestamp : String
deriving DecidableEq, Repr

/-- The `userPreferences` record.  `experienceLevel` is one of the literal
strings beginner / intermediate / expert, as in the TypeScript union type. -/
structure Preferences where
  vehicleMake : String
  vehicleModel : String
  vehicleYear : Nat
  experienceLevel : String
  interests : List String
deriving DecidableEq, Repr

/-- A web-search hit (`SearchResult` of lib/webSearch).  `partNumber`,
`compatibility`, `imageUrl` and `url` are carried by the interface but never
read by the route logic under verification; only the fields the relevance
scorer and the claims read are modelled.  The scorer also reads a `timestamp`
off the untyped result; it is modelled as an optional epoch-milliseconds
value (ISO-string parsing by `new Date(...)` is abstracted). -/
structure SearchResult where
  title : String
  description : String
  price : Option String
  supplier : Option String
  source : String
  timestamp : Option Int
deriving DecidableEq, Repr

/-- A scored result: `{...result, relevanceScore}`. -/
structure ScoredResult extends SearchResult where
  relevanceScore : Nat
deriving DecidableEq, Repr

/-- An internal parts-database record; only presence matters to the route
(the payload passes records through untouched), so the searchable text
fields suffice. -/
structure Part where
  name : String
  description : String
deriving DecidableEq, Repr

/-- A knowledge-base entry; the route reads `_id`, `category` and `content`. -/
structure Knowledge where
  id : String
  category : String
  content : String
deriving DecidableEq, Repr

/-- One per-user entry of the `conversationMemory` map. -/
structure ConversationRecord where
  messages : List Msg
  userPreferences : Preferences
  searchHistory : List String
  lastActive : String
deriving DecidableEq, Repr

/-- The process-wide `conversationMemory` map, as an association list keyed by
user identifier. -/
def Memory := List (String × ConversationRecord)

instance : DecidableEq Memory := inferInstanceAs (DecidableEq (List _))

/-- `conversationMemory.get(userId)`. -/
def memGet : Memory → String → Option ConversationRecord
  | [], _ => none
  | (k, v) :: t, u => if k = u then some v else memGet t u

/-- `conversationMemory.set(userId, record)` (replace or append). -/
def memSet : Memory → String → ConversationRecord → Memory
  | [], u, r => [(u, r)]
  | (k, v) :: t, u, r => if k = u then (u, r) :: t else (k, v) :: memSet t u r

/-! ## Vocabularies (the alternation lists of the route's regexes) -/

/-- `makeRegex` of `extractUserPreferences`. -/
def makeList : List String :=
  ["honda", "yamaha", "kawasaki", "suzuki", "bmw", "harley", "ducati", "ford",
   "toyota", "mercedes", "audi", "nissan", "mazda", "subaru", "volkswagen",
   "vw", "lexus", "acura", "infiniti", "cadillac", "chevrolet", "chevy",
   "gmc", "dodge", "ram", "jeep", "chrysler"]

/-- `modelRegex` of `extractUserPreferences`. -/
def modelList : List String :=
  ["civic", "accord", "camry", "corolla", "f150", "f-150", "mustang", "focus",
   "fiesta", "explorer", "cb750", "cb650", "cb500", "cbr", "ninja", "gsxr",
   "r6", "r1", "m3", "m5", "x3", "x5", "3 series", "5 series", "e46", "e90",
   "e92", "prius", "rav4", "highlander", "pilot", "crv", "cr-v", "hrv",
   "hr-v", "wrx", "sti", "legacy", "outback", "forester", "impreza", "brz"]

/-- The part-noun alternation of `generateProactiveSearches`. -/
def partNounList : List String :=
  ["tensioner", "brake", "clutch", "chain", "gear", "oil", "filter",
   "spark plug", "tire"]

/-- The part vocabulary of the `isSpecific` check in the handler. -/
def specificPartVocab : List String :=
  ["brake pad", "oil filter", "spark plug", "cam chain tensioner",
   "alternator", "starter", "water pump", "boost control", "solenoid",
   "ebcs", "turbo", "intercooler", "downpipe"]

/-- The model vocabulary of the `isSpecific` check in the handler. -/
def specificModelVocab : List String :=
  ["civic", "accord", "camry", "corolla", "f150", "mustang", "cb750", "wrx",
   "sti", "subaru", "bmw", "audi", "mercedes", "lexus", "acura"]

/-- The follow-up-question vocabulary of the handler. -/
def followUpVocab : List String :=
  ["tips", "advice", "help", "guide", "how to", "install", "replace", "fix"]

/-- The model vocabulary of the `hasConversationContext` check. -/
def ctxModelVocab : List String :=
  ["civic", "accord", "cb750", "m3", "camry", "wrx", "sti", "subaru", "bmw",
   "audi", "mercedes", "lexus", "acura"]

/-- The generic-make alternation of the handler's `isVague` tail regex. -/
def vagueMakeVocab : List String := ["honda", "toyota", "bmw", "ford"]

/-- The part vocabulary of `getFallbackResponse`'s `isSpecificPart`. -/
def fbPartVocab : List String :=
  ["brake pad", "oil filter", "spark plug", "air filter",
   "cam chain tensioner", "clutch plate", "timing belt", "water pump",
   "alternator", "starter", "boost control", "solenoid", "ebcs", "turbo",
   "intercooler", "downpipe"]

/-- The problem vocabulary of `getFallbackResponse`'s `isSpecificProblem`. -/
def fbProblemVocab : List String :=
  ["won't start", "making noise", "overheating", "leaking", "grinding",
   "squealing", "rough idle", "boost spikes", "inconsistent boost"]

/-- The model vocabulary of `getFallbackResponse`'s `hasVehicleDetails`. -/
def fbModelVocab : List String :=
  ["civic", "accord", "camry", "corolla", "f150", "mustang", "cb750", "m3",
   "m1", "wrx", "sti", "subaru", "bmw", "audi", "mercedes", "lexus", "acura",
   "hatchback"]

/-- The follow-up vocabulary of `getFallbackResponse`'s `isFollowUpRequest`. -/
def fbFollowVocab : List String :=
  ["tips", "advice", "help", "guide", "more info", "tell me more"]

/-! ## Regex helpers used by the classifiers -/

/-- Full case-insensitive equality of character lists. -/
def ciEqList : List Char → List Char → Bool
  | [], [] => true
  | a :: as, b :: bs => (a.toLower == b.toLower) && ciEqList as bs
  | _, _ => false

/-- Consume `\s+` and then require the rest of the text to equal one of the
alternatives exactly (the patterns below are `$`-anchored). -/
def wsThenExact (l : List Char) (alts : List String) : Bool :=
  let ws := l.takeWhile Char.isWhitespace
  !ws.isEmpty && alts.any fun n => ciEqList (l.drop ws.length) n.data

/-- The handler's vague-tail regex
`/\b(honda|toyota|bmw|ford)\s+(motors?|parts?|info)$\b/i.test(message)`:
a generic make, whitespace, and a generic noun ending the message. -/
def vagueTailTest (message : String) : Bool :=
  anyBoundary
    (fun l => vagueMakeVocab.any fun mk =>
      ciStartsWith l mk.data &&
        wsThenExact (l.drop mk.length) ["motor", "motors", "part", "parts", "info"])
    false message.data

/-- The standalone-request regex
`/^(want|need|looking for)\s+(info|information|help)$/i.test(message.trim())`. -/
def standaloneReqTest (message : String) : Bool :=
  let l := trimChars message.data
  ["want", "need", "looking for"].any fun v =>
    ciStartsWith l v.data && wsThenExact (l.drop v.length) ["info", "information", "help"]

/-! ## The route's pure helper functions -/

/-- Lower-cased concatenation (`join(' ')`) of all message contents, the text
every extraction rule scans. -/
def allTextChars (messages : List Msg) : List Char :=
  (joinSpace (messages.map fun m => m.content.data)).map Char.toLower

/-- The beginner-phrase test of the experience-level rule. -/
def beginnerHit (allText : List Char) : Bool :=
  hasSubList allText "beginner".data || hasSubList allText "new to".data ||
  hasSubList allText "first time".data || hasSubList allText "never done".data

/-- The expert-phrase test of the experience-level rule (only reached when no
beginner phrase matched: the source uses if / else if). -/
def expertHit (allText : List Char) : Bool :=
  hasSubList allText "expert".data || hasSubList allText "professional".data ||
  hasSubList allText "mechanic".data || hasSubList allText "years of experience".data

/-- `extractUserPreferences` (route.ts): re-derives the preference record from
the full message history.  `match(...)` results are used through their last
element for make/model and through `Math.max ∘ parseInt` for the year; a null
match leaves the defaulted field. -/
def extractUserPreferences (messages : List Msg) : Preferences :=
  let allText := allTextChars messages
  let makeMatches := scanVocab makeList allText
  let modelMatches := scanVocab modelList allText
  let yearMatches := scanYears allText
  { vehicleMake := makeMatches.getLastD ""
    vehicleModel := modelMatches.getLastD ""
    vehicleYear := listMax yearMatches
    experienceLevel :=
      if beginnerHit allText then "beginner"
      else if expertHit allText then "expert"
      else "intermediate"
    interests :=
      (if hasVocab ["brake", "brakes"] allText then ["brakes"] else []) ++
      (if hasVocab ["engine", "motor", "swap"] allText then ["engine"] else []) ++
      (if hasVocab ["suspension", "shock", "strut"] allText then ["suspension"] else []) ++
      (if hasVocab ["electrical", "wiring", "lights"] allText then ["electrical"] else []) ++
      (if hasVocab ["exhaust", "muffler", "pipe"] allText then ["exhaust"] else []) }

/-- Whether an optional string is truthy in JavaScript (present and
non-empty). -/
def jsTruthyStrOpt : Option String → Bool
  | none => false
  | some s => !(s == "")

/-- `scoreResultRelevance` (route.ts): the additive relevance heuristic.
`nowMs` stands for `Date.now()`; `hoursSinceFound < 24` is equivalent to
`nowMs - timestamp < 86400000` milliseconds. -/
def scoreResultRelevance (result : SearchResult) (userQuery : String)
    (userPreferences : Preferences) (nowMs : Int) : Nat :=
  let queryTerms := splitSpace (strLower userQuery).data
  let resultText := strLower (result.title ++ " " ++ result.description)
  let termScore := 10 * queryTerms.countP fun term => hasSubList resultText.data term
  let makeScore :=
    if userPreferences.vehicleMake ≠ "" ∧
        hasSubStr resultText (strLower userPreferences.vehicleMake) = true
    then 20 else 0
  let modelScore :=
    if userPreferences.vehicleModel ≠ "" ∧
        hasSubStr resultText (strLower userPreferences.vehicleModel) = true
    then 15 else 0
  let rockAutoScore := if result.supplier = some "RockAuto" then 10 else 0
  let ebayScore :=
    if result.supplier = some "eBay" ∧ jsTruthyStrOpt result.price = true then 5 else 0
  let amazonScore := if result.supplier = some "Amazon" then 8 else 0
  let recencyScore :=
    match result.timestamp with
    | some ts => if nowMs - ts < 86400000 then 5 else 0
    | none => 0
  termScore + makeScore + modelScore + rockAutoScore + ebayScore + amazonScore +
    recencyScore

/-- `generateProactiveSearches` (route.ts).  Note that the outer guard only
fires on the literal (case-sensitive) substrings tensioner / brake / clutch,
while the part name itself is the first case-insensitive word-boundary match
of the full noun list; `${preferences.vehicleMake || ''}` equals the stored
make string in either case. -/
def generateProactiveSearches (userMessage : String) (preferences : Preferences) :
    List String :=
  let partSearches :=
    if hasSubStr userMessage "tensioner" || hasSubStr userMessage "brake" ||
        hasSubStr userMessage "clutch" then
      match firstVocabMatch partNounList userMessage with
      | some partName =>
          [partName ++ " installation guide " ++ preferences.vehicleMake,
           partName ++ " troubleshooting " ++ preferences.vehicleMake,
           partName ++ " replacement cost " ++ preferences.vehicleMake]
      | none => []
    else []
  let vehicleSearches :=
    if preferences.vehicleMake ≠ "" ∧ preferences.vehicleModel ≠ "" then
      [preferences.vehicleMake ++ " " ++ preferences.vehicleModel ++ " common problems",
       preferences.vehicleMake ++ " " ++ preferences.vehicleModel ++ " maintenance schedule"]
    else []
  (partSearches ++ vehicleSearches).take 2

/-! ## Query classifier (the gating expressions of the handler) -/

/-- The handler's `isVague` expression (JS `&&` binds tighter than `||`). -/
def isVagueCheck (message : String) : Bool :=
  decide (message.length < 10) ||
  (hasSubStr (strLower message) "information about" && decide (message.length < 50)) ||
  (hasSubStr (strLower message) "tell me about" && decide (message.length < 50)) ||
  vagueTailTest message ||
  standaloneReqTest message

/-- The handler's `isSpecific` expression. -/
def isSpecificCheck (message : String) : Bool :=
  hasVocab specificPartVocab message.data || hasLooseYear message ||
  hasVocab specificModelVocab message.data || decide (message.length > 100)

/-- The handler's `isFollowUpQuestion` expression (evaluated after the user
message was pushed and the preferences re-derived). -/
def isFollowUpCheck (message : String) (userMemory : ConversationRecord) : Bool :=
  hasVocab followUpVocab message.data &&
  decide (userMemory.messages.length > 2) &&
  decide (userMemory.userPreferences.vehicleMake ≠ "")

/-- The handler's `hasConversationContext` expression. -/
def hasConversationContextCheck (userMemory : ConversationRecord) : Bool :=
  decide (userMemory.messages.length > 0) &&
  (decide (userMemory.userPreferences.vehicleMake ≠ "") ||
   userMemory.searchHistory.any fun s => hasLooseYear s || hasVocab ctxModelVocab s.data)

/-! ## External collaborators

The route's external calls (document store, web/marketplace search, LLM) are
modelled by their per-request outcomes, packaged in `Env`: each call either
yields a value or fails (the thrown error).  The `try/catch` wrappers around
them in route.ts are embedded below, so a failing outcome degrades exactly
where the source catches. -/

structure Env where
  /-- Whether `process.env.OPENAI_API_KEY` is set. -/
  apiKeyConfigured : Bool
  /-- Outcome of the internal parts-database query (`Part.find`). -/
  dbOutcome : Except String (List Part)
  /-- Outcome of the knowledge-base query (`Knowledge.searchByQuery` plus the
  by-vehicle lookup, combined and deduplicated collaborator-side). -/
  kbOutcome : Except String (List Knowledge)
  /-- Outcome of `webSearchService.searchParts` for each query string. -/
  webOutcome : String → Except String (List SearchResult)
  /-- Outcome of the OpenAI completion call: failure, or the (possibly null)
  message content. -/
  llmOutcome : Except String (Option String)
  /-- `Date.now()` in milliseconds. -/
  nowMs : Int
  /-- `new Date().toISOString()`. -/
  nowIso : String

/-- `searchPartsInDatabase` (route.ts): catches any error and returns `[]`. -/
def searchPartsInDatabase (env : Env) (_query : String) : List Part :=
  match env.dbOutcome with
  | .ok parts => parts
  | .error _ => []

/-- `searchKnowledgeBase` (route.ts): catches any error and returns `[]`. -/
def searchKnowledgeBase (env : Env) (_query : String) : List Knowledge :=
  match env.kbOutcome with
  | .ok knowledge => knowledge
  | .error _ => []

/-- `searchWebForParts` (route.ts): catches any error and returns `[]`. -/
def searchWebForParts (env : Env) (query : String) : List SearchResult :=
  match env.webOutcome query with
  | .ok results => results
  | .error _ => []

/-- `getEnhancedAIResponse` (route.ts), by its observable outcome: it throws
when no API key is configured, and any error is caught and turned into
`null`; a successful call yields `completion.choices[0]?.message?.content ||
null`, so an absent or empty content also becomes `null`.  The system-prompt
string it assembles is passed to the external LLM and never influences the
route's control flow, so it is not modelled. -/
def getEnhancedAIResponse (apiKeyConfigured : Bool)
    (llmOutcome : Except String (Option String)) : Option String :=
  if apiKeyConfigured then
    match llmOutcome with
    | .error _ => none
    | .ok none => none
    | .ok (some content) => if content = "" then none else some content
  else none

/-! ## Scoring and filtering pipeline (Step 5 of the handler) -/

/-- The map adding `relevanceScore` to each pooled result. -/
def scoreAllResults (pool : List SearchResult) (message : String)
    (prefs : Preferences) (nowMs : Int) : List ScoredResult :=
  pool.map fun r =>
    { toSearchResult := r
      relevanceScore := scoreResultRelevance r message prefs nowMs }

/-- Descending order on relevance score, the comparator
`(a, b) => b.relevanceScore - a.relevanceScore`. -/
def scoreGE (a b : ScoredResult) : Prop := b.relevanceScore ≤ a.relevanceScore

instance : DecidableRel scoreGE :=
  fun a b => inferInstanceAs (Decidable (b.relevanceScore ≤ a.relevanceScore))

instance : IsTotal ScoredResult scoreGE :=
  ⟨fun a b => (Nat.le_total a.relevanceScore b.relevanceScore).symm⟩

instance : IsTrans ScoredResult scoreGE :=
  ⟨fun _ _ _ h1 h2 => Nat.le_trans h2 h1⟩

/-- `filteredResults`: keep the scores strictly above 15, sort descending,
keep the top 8. -/
def filterAndRank (scoredResults : List ScoredResult) : List ScoredResult :=
  (List.insertionSort scoreGE
    (scoredResults.filter fun r => decide (15 < r.relevanceScore))).take 8

/-! ## Fallback response -/

/-- The `isVague` expression of `getFallbackResponse` (stricter than the
handler's). -/
def fbIsVague (message : String) : Bool :=
  let lowerMessage := strLower message
  decide (lowerMessage.length < 8) ||
  (hasSubStr lowerMessage "information about" && decide (lowerMessage.length < 30)) ||
  (hasSubStr lowerMessage "tell me about" && decide (lowerMessage.length < 30)) ||
  decide (lowerMessage = "honda motors") || decide (lowerMessage = "toyota parts") ||
  standaloneReqTest message ||
  (decide ((splitSpace lowerMessage.data).length < 3) &&
   !hasSubStr lowerMessage "tensioner" && !hasSubStr lowerMessage "solenoid" &&
   !hasSubStr lowerMessage "ebcs")

/-- The parts of a fallback response the handler's observable behaviour
depends on.  The hand-written `message` / `installation` / `tips` template
texts returned alongside are constant strings that no control flow reads;
they are not modelled. -/
structure FallbackResponse where
  parts : List Part
  knowledgeBase : List Knowledge
  webResults : List ScoredResult
deriving DecidableEq, Repr

/-- `getFallbackResponse` (route.ts): the branch structure deciding which of
the already-computed result sets the templated response carries.  Branches in
source order: follow-up request, vague query (drops every result set), a
specific-looking query, the cam-chain-tensioner special case (drops every
result set), and the general fallback. -/
def getFallbackResponse (message : String) (foundParts : List Part)
    (webResults : List ScoredResult) (knowledgeBase : List Knowledge) :
    FallbackResponse :=
  let lowerMessage := strLower message
  let isVague := fbIsVague message
  let isSpecificPart := hasVocab fbPartVocab message.data
  let isSpecificProblem := hasVocab fbProblemVocab message.data
  let hasVehicleDetails := hasLooseYear message || hasVocab fbModelVocab message.data
  let isFollowUpRequest := hasVocab fbFollowVocab message.data
  if isFollowUpRequest && !isVague then
    { parts := foundParts, knowledgeBase := knowledgeBase, webResults := webResults }
  else if isVague then
    { parts := [], knowledgeBase := [], webResults := [] }
  else if isSpecificPart || isSpecificProblem || hasVehicleDetails ||
      decide (message.length > 50) then
    { parts := foundParts, knowledgeBase := knowledgeBase, webResults := webResults }
  else if hasSubStr lowerMessage "cam chain tensioner" || hasSubStr lowerMessage "cct" then
    { parts := [], knowledgeBase := [], webResults := [] }
  else
    { parts := foundParts, knowledgeBase := knowledgeBase, webResults := webResults }

/-! ## The POST handler -/

/-- The verified JWT payload `getUserFromRequest` yields. -/
structure UserPayload where
  userId : String
deriving DecidableEq, Repr

/-- The parsed request body; `context` is destructured but never used. -/
structure Body where
  message : Option String
deriving DecidableEq, Repr

/-- JavaScript falsiness of `message` (`!message`): absent or empty. -/
def jsFalsyOptStr : Option String → Bool
  | none => true
  | some s => decide (s = "")

/-- The record `conversationMemory.set` installs on a user's first turn. -/
def initialRecord (nowIso : String) : ConversationRecord :=
  { messages := []
    userPreferences :=
      { vehicleMake := ""
        vehicleModel := ""
        vehicleYear := 0
        experienceLevel := "intermediate"
        interests := [] }
    searchHistory := []
    lastActive := nowIso }

/-- The observable outcome of one `POST` request.  `webQueries` is the trace
of `searchWebForParts` invocations (the direct query followed by the
proactive queries); the response's free-text fields (`response`,
`installation`, `tips`), assembled by `parseAIResponseStructure` or the
fallback templates, do not feed back into any modelled state and are not
carried.  On the success path the handler overrides the structured response's
`parts` with `foundParts` and its `webResults` with `filteredResults`. -/
structure PostResult where
  status : Nat
  error : Option String
  parts : List Part
  knowledgeBase : List Knowledge
  webResults : List ScoredResult
  proactiveSearches : List String
  usedFallback : Bool
  webQueries : List String
  memory : Memory

/-- The error responses of the handler. -/
def errorResult (status : Nat) (msg : String) (mem : Memory) : PostResult :=
  { status := status
    error := some msg
    parts := []
    knowledgeBase := []
    webResults := []
    proactiveSearches := []
    usedFallback := false
    webQueries := []
    memory := mem }

/-- The main body of `POST` once authentication and the message-presence check
have passed.  The in-place mutations of the memory record are modelled by
building the updated record and writing it back; `{...userPreferences,
...updatedPreferences}` replaces every preference field because the extractor
returns a full record. -/
def postMain (env : Env) (mem : Memory) (userId message : String) : PostResult :=
  let mem1 :=
    match memGet mem userId with
    | some _ => mem
    | none => memSet mem userId (initialRecord env.nowIso)
  let rec0 := (memGet mem1 userId).getD (initialRecord env.nowIso)
  let rec1 := { rec0 with
    messages := rec0.messages ++ [Msg.mk "user" message env.nowIso] }
  let updatedPreferences := extractUserPreferences rec1.messages
  let rec2 := { rec1 with
    userPreferences := updatedPreferences
    searchHistory := rec1.searchHistory ++ [message]
    lastActive := env.nowIso }
  let foundParts := searchPartsInDatabase env message
  let knowledgeBase := searchKnowledgeBase env message
  let isVague := isVagueCheck message
  let isSpecific := isSpecificCheck message
  let isFollowUpQuestion := isFollowUpCheck message rec2
  let hasConversationContext := hasConversationContextCheck rec2
  let doWebSearch := !isVague && (isSpecific || isFollowUpQuestion || hasConversationContext)
  let webResults := if doWebSearch then searchWebForParts env message else []
  let proactiveSearches :=
    if doWebSearch then generateProactiveSearches message rec2.userPreferences else []
  let proactiveResults := (proactiveSearches.map fun q => searchWebForParts env q).flatten
  let webQueries := (if doWebSearch then [message] else []) ++ proactiveSearches
  let allWebResults := webResults ++ proactiveResults
  let scoredResults := scoreAllResults allWebResults message rec2.userPreferences env.nowMs
  let filteredResults := filterAndRank scoredResults
  match (if env.apiKeyConfigured then getEnhancedAIResponse env.apiKeyConfigured env.llmOutcome
         else none) with
  | some aiResponse =>
    let rec3 := { rec2 with
      messages := rec2.messages ++ [Msg.mk "assistant" aiResponse env.nowIso] }
    { status := 200
      error := none
      parts := foundParts
      knowledgeBase := knowledgeBase
      webResults := filteredResults
      proactiveSearches := proactiveSearches
      usedFallback := false
      webQueries := webQueries
      memory := memSet mem1 userId rec3 }
  | none =>
    let fb := getFallbackResponse message foundParts filteredResults knowledgeBase
    { status := 200
      error := none
      parts := fb.parts
      knowledgeBase := fb.knowledgeBase
      webResults := fb.webResults
      proactiveSearches := proactiveSearches
      usedFallback := true
      webQueries := webQueries
      memory := memSet mem1 userId rec2 }

/-- `POST` (route.ts): authentication, message-presence check, then the main
flow.  A missing payload yields 401, a falsy `message` yields 400, both
before any memory access. -/
def POST (env : Env) (mem : Memory) (auth : Option UserPayload) (body : Body) :
    PostResult :=
  match auth with
  | none => errorResult 401 "Unauthorized" mem
  | some userPayload =>
    match body.message with
    | none => errorResult 400 "Message is required" mem
    | some message =>
      if message = "" then errorResult 400 "Message is required" mem
      else postMain env mem userPayload.userId message

/-! ## Multi-turn runs (for the round-trip claim) -/

/-- One chat turn: the message sent and the collaborator outcomes for that
request. -/
structure TurnInput where
  message : String
  env : Env

/-- Run a sequence of authenticated turns for one user, threading the
process-wide memory. -/
def runTurns (userId : String) (mem : Memory) : List TurnInput → Memory
  | [] => mem
  | t :: ts =>
    runTurns userId (POST t.env mem (some ⟨userId⟩) ⟨some t.message⟩).memory ts

/-- The number of stored messages for a user (0 when no record exists). -/
def msgCount (mem : Memory) (userId : String) : Nat :=
  match memGet mem userId with
  | none => 0
  | some r => r.messages.length

/-- A sample environment with no LLM credential and all searches succeeding
with empty result sets (used to instantiate universally quantified
theorems). -/
def sampleEnv : Env :=
  { apiKeyConfigured := false
    dbOutcome := .ok []
    kbOutcome := .ok []
    webOutcome := fun _ => .ok []
    llmOutcome := .error "unavailable"
    nowMs := 0
    nowIso := "" }

/-- A sample environment in which every external collaborator fails. -/
def failEnv : Env :=
  { apiKeyConfigured := true
    dbOutcome := .error "db down"
    kbOutcome := .error "kb down"
    webOutcome := fun _ => .error "web down"
    llmOutcome := .error "llm down"
    nowMs := 0
    nowIso := "" }

/-- Whether an outcome is a thrown error. -/
def exceptFailed {ε α : Type} : Except ε α → Bool
  | .error _ => true
  | .ok _ => false

/-! ## Claim C1: filtering, ordering and cap of the scored web-result pool -/

/-- C1.  For every pooled set of web-search candidate results and every query
and preference record (and clock value), the filtering step keeps only
results whose relevance score is strictly greater than 15, returns them in
descending score order, and returns at most 8 of them. -/
theorem C1_filter_sort_cap (pool : List SearchResult) (message : String)
    (prefs : Preferences) (nowMs : Int) :
    (∀ r ∈ filterAndRank (scoreAllResults pool message prefs nowMs),
        15 < r.relevanceScore) ∧
    List.Sorted scoreGE (filterAndRank (scoreAllResults pool message prefs nowMs)) ∧
    (filterAndRank (scoreAllResults pool message prefs nowMs)).length ≤ 8 := by
  unfold filterAndRank
  refine ⟨?_, ?_, ?_⟩
  · intro r hr
    have h1 := List.mem_of_mem_take hr
    have h2 := (List.perm_insertionSort scoreGE _).mem_iff.mp h1
    have h3 := List.of_mem_filter h2
    exact of_decide_eq_true h3
  · exact List.Pairwise.sublist (List.take_sublist _ _)
      (List.sorted_insertionSort scoreGE _)
  · rw [List.length_take]
    exact Nat.min_le_left _ _

/-- Witness for C1 at a concrete pool: the surviving result scores above the
threshold and the output respects the cap. -/
theorem C1_filter_sort_cap_witness :
    15 < (ScoredResult.mk (SearchResult.mk "honda brake" "" none none "scraped" none) 30).relevanceScore ∧
    (filterAndRank (scoreAllResults
        [SearchResult.mk "honda brake" "" none none "scraped" none]
        "brake" (Preferences.mk "honda" "" 0 "intermediate" []) 0)).length ≤ 8 := by
  have h := C1_filter_sort_cap
    [SearchResult.mk "honda brake" "" none none "scraped" none]
    "brake" (Preferences.mk "honda" "" 0 "intermediate" []) 0
  exact ⟨h.1 (ScoredResult.mk (SearchResult.mk "honda brake" "" none none "scraped" none) 30)
    (by decide), h.2.2⟩

/-! ## Claim C9: the Preference Extractor is a pure function of the ordered
message contents -/

/-- C9.  The Preference Extractor is deterministic: it is a pure function of
the ordered message contents, so two histories with the same contents (in
particular, the same history read twice) yield the identical preference
record. -/
theorem C9_extractor_deterministic (msgs msgs' : List Msg)
    (h : msgs.map Msg.content = msgs'.map Msg.content) :
    extractUserPreferences msgs = extractUserPreferences msgs' := by
  have hAll : allTextChars msgs = allTextChars msgs' := by
    unfold allTextChars
    have h1 : msgs.map (fun m => m.content.data) = msgs'.map (fun m => m.content.data) := by
      have h2 := congrArg (List.map String.data) h
      simpa [List.map_map, Function.comp] using h2
    rw [h1]
  unfold extractUserPreferences
  rw [hAll]

/-- Witness for C9: two histories differing only in roles and timestamps give
the same record. -/
theorem C9_extractor_deterministic_witness :
    extractUserPreferences [Msg.mk "user" "my honda civic" "t1"] =
      extractUserPreferences [Msg.mk "assistant" "my honda civic" "t2"] :=
  C9_extractor_deterministic _ _ (by decide)

/-! ## Claim C10: an empty message is rejected with 400 and memory is
untouched -/

/-- C10.  For every authenticated request whose body binds `message` to the
empty string, the endpoint answers 400 (the `!message` presence check treats
the empty string like a missing field) and the conversation memory is left
unchanged: no record is created and nothing is appended. -/
theorem C10_empty_message_400 (env : Env) (mem : Memory) (p : UserPayload) :
    (POST env mem (some p) (Body.mk (some ""))).status = 400 ∧
    (POST env mem (some p) (Body.mk (some ""))).memory = mem ∧
    (POST env mem (some p) (Body.mk (some ""))).error = some "Message is required" := by
  refine ⟨rfl, rfl, rfl⟩

/-! ## Claim C5: experience level when beginner and expert phrases co-occur

The claim says expert detection is checked after beginner detection and
overwrites it.  In the source the expert check sits in the `else if` branch
of the beginner check, so when both phrase families appear the level is
`beginner`: the beginner check takes precedence and the expert check is never
reached. -/

/-- Counterexample to C5: a history containing both a beginner phrase
("new to") and expert phrases ("professional", "mechanic") yields
`experienceLevel = "beginner"`, not `"expert"`. -/
theorem C5_counterexample :
    beginnerHit (allTextChars [Msg.mk "user"
        "i am new to this but my friend is a professional mechanic" ""]) = true ∧
    expertHit (allTextChars [Msg.mk "user"
        "i am new to this but my friend is a professional mechanic" ""]) = true ∧
    (extractUserPreferences [Msg.mk "user"
        "i am new to this but my friend is a professional mechanic" ""]).experienceLevel
      = "beginner" := by
  refine ⟨by decide, by decide, rfl⟩

/-- C5 (amended).  The beginner check takes precedence: any history whose
concatenated text contains a beginner-indicating phrase gets
`experienceLevel = "beginner"` even when an expert-indicating phrase is also
present; the expert level is assigned exactly when no beginner phrase but an
expert phrase occurs. -/
theorem C5_beginner_precedence (msgs : List Msg) :
    (beginnerHit (allTextChars msgs) = true →
      (extractUserPreferences msgs).experienceLevel = "beginner") ∧
    (beginnerHit (allTextChars msgs) = false →
      expertHit (allTextChars msgs) = true →
      (extractUserPreferences msgs).experienceLevel = "expert") := by
  constructor
  · intro hb
    unfold extractUserPreferences
    simp [hb]
  · intro hb he
    unfold extractUserPreferences
    simp [hb, he]

/-- Witness for C5's amended statement at concrete histories: the mixed
history from the counterexample is classified beginner, a purely expert one
expert. -/
theorem C5_beginner_precedence_witness :
    (extractUserPreferences [Msg.mk "user"
        "i am new to this yet i am a professional" ""]).experienceLevel = "beginner" ∧
    (extractUserPreferences [Msg.mk "user"
        "i work as a mechanic" ""]).experienceLevel = "expert" :=
  ⟨(C5_beginner_precedence _).1 (by decide),
   (C5_beginner_precedence _).2 (by decide) (by decide)⟩

/-! ## Claim C6: the proactive search planner

The claim says part-based queries are synthesized for every message that
mentions any noun of the list tensioner / brake / clutch / chain / gear /
oil / filter / spark plug / tire.  In the source the part branch only runs
when the message contains one of the literal substrings "tensioner",
"brake" or "clutch"; a message mentioning only e.g. "oil" or "filter"
generates no part-based query. -/

/-- Counterexample to C6: "oil filter replacement" mentions the listed nouns
oil and filter (the planner's own noun regex matches "oil"), yet no
part-based query is generated at all. -/
theorem C6_counterexample :
    firstVocabMatch partNounList "oil filter replacement" = some "oil" ∧
    generateProactiveSearches "oil filter replacement"
      (Preferences.mk "" "" 0 "intermediate" []) = [] := by
  refine ⟨rfl, rfl⟩

/-- C6 (amended).  The planner returns at most two queries; and whenever the
message contains one of the literal substrings "tensioner" / "brake" /
"clutch" and the noun regex finds a part name, the output is exactly the
first two part-based queries (installation guide, then troubleshooting) —
the vehicle-based queries are crowded out by the cap, and the replacement
cost query never survives it. -/
theorem C6_part_queries_priority :
    (∀ (msg : String) (prefs : Preferences),
      (generateProactiveSearches msg prefs).length ≤ 2) ∧
    ∀ (msg : String) (prefs : Preferences) (p : String),
      (hasSubStr msg "tensioner" || hasSubStr msg "brake" ||
        hasSubStr msg "clutch") = true →
      firstVocabMatch partNounList msg = some p →
      generateProactiveSearches msg prefs =
        [p ++ " installation guide " ++ prefs.vehicleMake,
         p ++ " troubleshooting " ++ prefs.vehicleMake] := by
  constructor
  · intro msg prefs
    unfold generateProactiveSearches
    rw [List.length_take]
    exact Nat.min_le_left _ _
  · intro msg prefs p hsub hmatch
    unfold generateProactiveSearches
    rw [hsub, hmatch]
    simp

/-- Witness for C6's amended statement: "brake pads worn" triggers the part
branch and yields exactly the two part-based queries. -/
theorem C6_part_queries_priority_witness :
    generateProactiveSearches "brake pads worn"
        (Preferences.mk "honda" "civic" 0 "intermediate" []) =
      ["brake installation guide honda", "brake troubleshooting honda"] :=
  C6_part_queries_priority.2 "brake pads worn"
    (Preferences.mk "honda" "civic" 0 "intermediate" []) "brake"
    (by decide) (by decide)

/-! ## Claim C2: short unspecific messages are vague and trigger no web
search -/

/-- C2.  Every message shorter than the vague threshold (10 characters) that
matches no term of the specific-part vocabulary is flagged `isVague`, and the
handler issues no web-search call at all for that turn — neither the direct
search nor any proactive search (the trace of issued web queries is empty).
In the source the length test alone suffices for `isVague`, and
`!isVague && ...` short-circuits the whole web-search block. -/
theorem C2_vague_no_web_search (env : Env) (mem : Memory) (p : UserPayload)
    (msg : String) (hlen : msg.length < 10)
    (hnospec : hasVocab specificPartVocab msg.data = false) :
    isVagueCheck msg = true ∧
    (POST env mem (some p) (Body.mk (some msg))).webQueries = [] := by
  have hv : isVagueCheck msg = true := by
    unfold isVagueCheck
    rw [decide_eq_true hlen]
    simp
  refine ⟨hv, ?_⟩
  by_cases hm : msg = ""
  · subst hm
    rfl
  · show (POST env mem (some p) (Body.mk (some msg))).webQueries = []
    unfold POST
    dsimp only
    rw [if_neg hm]
    unfold postMain
    rw [hv]
    simp only [Bool.not_true, Bool.false_and, if_neg (by exact Bool.false_ne_true)]
    split <;> rfl

/-- Witness for C2: the message "honda" (5 characters, no specific part
term) is vague and the turn issues no web query. -/
theorem C2_vague_no_web_search_witness :
    isVagueCheck "honda" = true ∧
    (POST sampleEnv [] (some (UserPayload.mk "u1"))
      (Body.mk (some "honda"))).webQueries = [] :=
  C2_vague_no_web_search sampleEnv [] (UserPayload.mk "u1") "honda"
    (by decide) (by decide)

/-! ## Claim C8: the extracted vehicle year -/

theorem natMax_eq_right {a b : Nat} (h : a ≤ b) : Nat.max a b = b := by
  show (if a ≤ b then b else a) = b
  rw [if_pos h]

theorem natMax_eq_left {a b : Nat} (h : b ≤ a) : Nat.max a b = a := by
  show (if a ≤ b then b else a) = a
  split
  · omega
  · rfl

theorem digitVal_le_nine {c : Char} (h : isAsciiDigit c = true) : digitVal c ≤ 9 := by
  unfold isAsciiDigit at h
  have h2 : c ∈ ['0', '1', '2', '3', '4', '5', '6', '7', '8', '9'] := by
    simpa [List.contains] using h
  fin_cases h2 <;> decide

theorem dv0 : digitVal '0' = 0 := rfl
theorem dv1 : digitVal '1' = 1 := rfl
theorem dv2 : digitVal '2' = 2 := rfl
theorem dv8 : digitVal '8' = 8 := rfl
theorem dv9 : digitVal '9' = 9 := rfl

theorem yearStrictHere_cons (d1 d2 d3 d4 : Char) (rest : List Char) :
    yearStrictHere (d1 :: d2 :: d3 :: d4 :: rest) =
      if ((d1 == '1' && d2 == '9' && (d3 == '8' || d3 == '9')) ||
          (d1 == '2' && d2 == '0' && (d3 == '0' || d3 == '1' || d3 == '2'))) &&
          isAsciiDigit d4 && boundAfter rest then
        some (1000 * digitVal d1 + 100 * digitVal d2 + 10 * digitVal d3 + digitVal d4)
      else none := rfl

theorem yearStrictHere_range {l : List Char} {y : Nat}
    (h : yearStrictHere l = some y) : 1980 ≤ y ∧ y ≤ 2029 := by
  rcases l with _ | ⟨d1, _ | ⟨d2, _ | ⟨d3, _ | ⟨d4, rest⟩⟩⟩⟩
  · exact Option.noConfusion h
  · exact Option.noConfusion h
  · exact Option.noConfusion h
  · exact Option.noConfusion h
  · rw [yearStrictHere_cons] at h
    split at h
    next hc =>
      have hy := Option.some.inj h
      simp only [Bool.and_eq_true, Bool.or_eq_true, beq_iff_eq] at hc
      obtain ⟨⟨hpat, hd4⟩, _hba⟩ := hc
      have h9 := digitVal_le_nine hd4
      rcases hpat with ⟨⟨hd1, hd2⟩, hd3 | hd3⟩ | ⟨⟨hd1, hd2⟩, (hd3 | hd3) | hd3⟩ <;>
        subst hd1 <;> subst hd2 <;> subst hd3 <;>
        simp only [dv0, dv1, dv2, dv8, dv9] at hy <;> omega
    next => exact Option.noConfusion h

theorem scanYearsAux_cons_true (c : Char) (t : List Char) :
    scanYearsAux true (c :: t) = scanYearsAux (wordChar c) t := rfl

theorem scanYearsAux_cons_false (c : Char) (t : List Char) :
    scanYearsAux false (c :: t) =
      match yearStrictHere (c :: t) with
      | some y => y :: scanYearsAux (wordChar c) t
      | none => scanYearsAux (wordChar c) t := rfl

theorem scanYearsAux_range :
    ∀ (l : List Char) (prevW : Bool) (y : Nat), y ∈ scanYearsAux prevW l →
      1980 ≤ y ∧ y ≤ 2029 := by
  intro l
  induction l with
  | nil =>
    intro prevW y hy
    rw [show scanYearsAux prevW [] = [] from rfl] at hy
    exact absurd hy (List.not_mem_nil y)
  | cons c t ih =>
    intro prevW y hy
    cases prevW with
    | true =>
      rw [scanYearsAux_cons_true] at hy
      exact ih _ y hy
    | false =>
      rw [scanYearsAux_cons_false] at hy
      cases hh : yearStrictHere (c :: t) with
      | none => rw [hh] at hy; exact ih _ y hy
      | some yv =>
        rw [hh] at hy
        rcases List.mem_cons.mp hy with hEq | hMem
        · subst hEq; exact yearStrictHere_range hh
        · exact ih _ y hMem

theorem foldl_max_init_le (ys : List Nat) (a : Nat) : a ≤ ys.foldl Nat.max a := by
  induction ys generalizing a with
  | nil => exact Nat.le_refl a
  | cons y ys ih => exact Nat.le_trans (Nat.le_max_left a y) (ih (Nat.max a y))

theorem foldl_max_mem (ys : List Nat) (a : Nat) :
    ys.foldl Nat.max a = a ∨ ys.foldl Nat.max a ∈ ys := by
  induction ys generalizing a with
  | nil => exact Or.inl rfl
  | cons y ys ih =>
    rcases ih (Nat.max a y) with h | h
    · rcases Nat.le_total a y with hle | hle
      · right; rw [List.foldl_cons, h, natMax_eq_right hle]; exact List.mem_cons_self _ _
      · left; rw [List.foldl_cons, h, natMax_eq_left hle]
    · right; rw [List.foldl_cons]; exact List.mem_cons_of_mem _ h

theorem mem_le_foldl_max (ys : List Nat) (a y : Nat) : y ∈ ys → y ≤ ys.foldl Nat.max a := by
  induction ys generalizing a with
  | nil => intro h; exact absurd h (List.not_mem_nil y)
  | cons z zs ih =>
    intro h
    rw [List.foldl_cons]
    rcases List.mem_cons.mp h with hEq | hMem
    · subst hEq
      exact Nat.le_trans (Nat.le_max_right a _) (foldl_max_init_le zs _)
    · exact ih _ hMem

theorem listMax_mem (l : List Nat) (h : l ≠ []) : listMax l ∈ l := by
  match l with
  | [] => exact absurd rfl h
  | y :: ys =>
    show ys.foldl Nat.max y ∈ y :: ys
    rcases foldl_max_mem ys y with h1 | h1
    · rw [h1]; exact List.mem_cons_self _ _
    · exact List.mem_cons_of_mem _ h1

theorem le_listMax (l : List Nat) (y : Nat) (h : y ∈ l) : y ≤ listMax l := by
  match l with
  | [] => exact absurd h (List.not_mem_nil y)
  | z :: zs =>
    show y ≤ zs.foldl Nat.max z
    rcases List.mem_cons.mp h with hEq | hMem
    · subst hEq; exact foldl_max_init_le zs y
    · exact mem_le_foldl_max zs z y hMem

/-- C8.  The extracted `vehicleYear` is a 4-digit year constrained to
1980–2029; when several matching years occur in the concatenated text the
numerically largest one is kept (it is the maximum of all matches, and itself
one of them); absence of any match leaves the default value 0 rather than
failing. -/
theorem C8_vehicle_year (msgs : List Msg) :
    (scanYears (allTextChars msgs) = [] →
      (extractUserPreferences msgs).vehicleYear = 0) ∧
    (scanYears (allTextChars msgs) ≠ [] →
      (extractUserPreferences msgs).vehicleYear ∈ scanYears (allTextChars msgs) ∧
      (∀ y ∈ scanYears (allTextChars msgs),
        y ≤ (extractUserPreferences msgs).vehicleYear) ∧
      1980 ≤ (extractUserPreferences msgs).vehicleYear ∧
      (extractUserPreferences msgs).vehicleYear ≤ 2029) := by
  have hyear : (extractUserPreferences msgs).vehicleYear
      = listMax (scanYears (allTextChars msgs)) := rfl
  constructor
  · intro h0
    rw [hyear, h0]
    rfl
  · intro hne
    have hmem : listMax (scanYears (allTextChars msgs)) ∈ scanYears (allTextChars msgs) :=
      listMax_mem _ hne
    have hrange := scanYearsAux_range (allTextChars msgs) false _ hmem
    exact ⟨hyear ▸ hmem,
      fun y hy => hyear ▸ le_listMax _ y hy,
      hyear ▸ hrange.1, hyear ▸ hrange.2⟩

/-! ## Claim C3: entries stored per chat turn

The claim says every turn appends the user message and then the assistant
reply, also on the fallback path, giving exactly 2N entries after N turns.
In the source the assistant message is pushed only inside the
`if (aiResponse)` branch; when the LLM is unconfigured or fails, the turn
stores only the user message. -/

theorem memGet_memSet_self (mem : Memory) (k : String) (v : ConversationRecord) :
    memGet (memSet mem k v) k = some v := by
  induction mem with
  | nil => simp [memSet, memGet]
  | cons p t ih =>
    obtain ⟨k', v'⟩ := p
    unfold memSet
    by_cases h : k' = k
    · rw [if_pos h]; unfold memGet; rw [if_pos rfl]
    · rw [if_neg h]; unfold memGet; rw [if_neg h]; exact ih

theorem aiGate (b : Bool) (llm : Except String (Option String)) :
    (if b then getEnhancedAIResponse b llm else none) = getEnhancedAIResponse b llm := by
  cases b
  · simp [getEnhancedAIResponse]
  · simp

/-- One authenticated, non-empty-message turn grows the user's stored
messages by 1 (the user message) plus 1 more exactly when the LLM path
succeeds. -/
theorem msgCount_after_turn (env : Env) (mem : Memory) (userId msg : String)
    (hm : msg ≠ "") :
    msgCount (POST env mem (some (UserPayload.mk userId)) (Body.mk (some msg))).memory userId =
      msgCount mem userId + 1 +
        (if (getEnhancedAIResponse env.apiKeyConfigured env.llmOutcome).isSome
         then 1 else 0) := by
  unfold POST
  dsimp only
  rw [if_neg hm]
  unfold postMain
  rw [aiGate]
  cases hAI : getEnhancedAIResponse env.apiKeyConfigured env.llmOutcome with
  | some air =>
    simp only [hAI, Option.isSome_some, if_pos]
    cases hg : memGet mem userId with
    | some r =>
      simp [hg, msgCount, memGet_memSet_self]
    | none =>
      simp [hg, msgCount, memGet_memSet_self, initialRecord]
  | none =>
    simp only [hAI, Option.isSome_none, Bool.false_eq_true, if_false]
    cases hg : memGet mem userId with
    | some r =>
      simp [hg, msgCount, memGet_memSet_self]
    | none =>
      simp [hg, msgCount, memGet_memSet_self, initialRecord]

/-- Message count after a sequence of turns from any starting memory. -/
theorem runTurns_msgCount (userId : String) :
    ∀ (turns : List TurnInput) (mem : Memory),
      (∀ t ∈ turns, t.message ≠ "") →
      msgCount (runTurns userId mem turns) userId =
        msgCount mem userId + turns.length +
          turns.countP (fun t =>
            (getEnhancedAIResponse t.env.apiKeyConfigured t.env.llmOutcome).isSome) := by
  intro turns
  induction turns with
  | nil =>
    intro mem _
    simp [runTurns]
  | cons t ts ih =>
    intro mem h
    unfold runTurns
    rw [ih _ (fun x hx => h x (List.mem_cons_of_mem _ hx))]
    rw [msgCount_after_turn _ _ _ _ (h t (List.mem_cons_self _ _))]
    rw [List.countP_cons, List.length_cons]
    cases hpt : (getEnhancedAIResponse t.env.apiKeyConfigured t.env.llmOutcome).isSome <;>
      simp [hpt] <;> omega

/-- Counterexample to C3: one turn with no LLM credential stores a single
entry (the user message), not 2·1 = 2 — the fallback text is not appended to
the conversation memory. -/
theorem C3_counterexample :
    msgCount (runTurns "u1" [] [TurnInput.mk "hello there friend" sampleEnv]) "u1" = 1 ∧
    ¬ msgCount (runTurns "u1" [] [TurnInput.mk "hello there friend" sampleEnv]) "u1" = 2 * 1 := by
  exact ⟨rfl, by decide⟩

/-- C3 (amended).  After N completed turns the stored `messages` sequence
holds N + S entries, where S is the number of turns on which the LLM path
succeeded: each turn appends the user message, and the assistant reply is
appended only on LLM success — on fallback turns the templated text is not
stored.  When every turn succeeds this is exactly 2N. -/
theorem C3_messages_per_turn (userId : String) (turns : List TurnInput)
    (h : ∀ t ∈ turns, t.message ≠ "") :
    msgCount (runTurns userId [] turns) userId =
      turns.length +
        turns.countP (fun t =>
          (getEnhancedAIResponse t.env.apiKeyConfigured t.env.llmOutcome).isSome) ∧
    ((∀ t ∈ turns,
        (getEnhancedAIResponse t.env.apiKeyConfigured t.env.llmOutcome).isSome = true) →
      msgCount (runTurns userId [] turns) userId = 2 * turns.length) := by
  have h0 := runTurns_msgCount userId turns [] h
  have hz : msgCount ([] : Memory) userId = 0 := rfl
  rw [hz] at h0
  constructor
  · omega
  · intro hall
    rw [List.countP_eq_length.mpr hall] at h0
    omega

/-- Witness for C3's amended statement: one successful-LLM turn stores
2 · 1 = 2 entries. -/
theorem C3_messages_per_turn_witness :
    msgCount (runTurns "u1" []
      [TurnInput.mk "I ride a honda cb750"
        (Env.mk true (.ok []) (.ok []) (fun _ => .ok [])
          (.ok (some "Happy to help with your CB750.")) 0 "")]) "u1" = 2 * 1 :=
  (C3_messages_per_turn "u1"
    [TurnInput.mk "I ride a honda cb750"
      (Env.mk true (.ok []) (.ok []) (fun _ => .ok [])
        (.ok (some "Happy to help with your CB750.")) 0 "")]
    (by decide)).2 (by decide)

/-- Witness for C8 at a history mentioning 1985 and 2003 (with 2077 and 1979
outside the accepted shape): the kept year is one of the matches, bounds all
of them and lies in 1980–2029. -/
theorem C8_vehicle_year_witness :
    (extractUserPreferences [Msg.mk "user" "bought 1985, rebuilt 2003, not 2077 or 1979" ""]).vehicleYear
        ∈ scanYears (allTextChars [Msg.mk "user" "bought 1985, rebuilt 2003, not 2077 or 1979" ""]) ∧
    1980 ≤ (extractUserPreferences [Msg.mk "user" "bought 1985, rebuilt 2003, not 2077 or 1979" ""]).vehicleYear ∧
    (extractUserPreferences [Msg.mk "user" "bought 1985, rebuilt 2003, not 2077 or 1979" ""]).vehicleYear ≤ 2029 := by
  have h := (C8_vehicle_year [Msg.mk "user" "bought 1985, rebuilt 2003, not 2077 or 1979" ""]).2
    (by decide)
  exact ⟨h.1, h.2.2.1, h.2.2.2⟩

/-! ## Claim C4: failures of external collaborators degrade, never abort -/

theorem fb_parts_nil (m : String) (w : List ScoredResult) (k : List Knowledge) :
    (getFallbackResponse m [] w k).parts = [] := by
  unfold getFallbackResponse
  dsimp only
  repeat' split
  all_goals rfl

theorem fb_kb_nil (m : String) (p : List Part) (w : List ScoredResult) :
    (getFallbackResponse m p w []).knowledgeBase = [] := by
  unfold getFallbackResponse
  dsimp only
  repeat' split
  all_goals rfl

theorem fb_web_nil (m : String) (p : List Part) (k : List Knowledge) :
    (getFallbackResponse m p [] k).webResults = [] := by
  unfold getFallbackResponse
  dsimp only
  repeat' split
  all_goals rfl

theorem searchWebForParts_fail (env : Env) (q : String)
    (h : exceptFailed (env.webOutcome q) = true) : searchWebForParts env q = [] := by
  unfold searchWebForParts
  cases hq : env.webOutcome q with
  | ok l => rw [hq] at h; exact absurd h (by simp [exceptFailed])
  | error e => rfl

theorem flatten_map_nil {α β : Type} (l : List α) :
    (l.map fun _ => ([] : List β)).flatten = [] := by
  induction l with
  | nil => rfl
  | cons a t ih => simp

theorem postMain_status (env : Env) (mem : Memory) (uid msg : String) :
    (postMain env mem uid msg).status = 200 := by
  unfold postMain
  rw [aiGate]
  cases hAI : getEnhancedAIResponse env.apiKeyConfigured env.llmOutcome <;> rfl

theorem postMain_parts_of_db_fail (env : Env) (mem : Memory) (uid msg : String)
    (hdb : exceptFailed env.dbOutcome = true) :
    (postMain env mem uid msg).parts = [] := by
  obtain ⟨e, he⟩ : ∃ e, env.dbOutcome = .error e := by
    cases h : env.dbOutcome with
    | error e => exact ⟨e, rfl⟩
    | ok l => rw [h] at hdb; exact absurd hdb (by simp [exceptFailed])
  have hsp : searchPartsInDatabase env msg = [] := by
    unfold searchPartsInDatabase; rw [he]
  unfold postMain
  rw [aiGate, hsp]
  cases hAI : getEnhancedAIResponse env.apiKeyConfigured env.llmOutcome with
  | some air => rfl
  | none =>
    show (getFallbackResponse msg [] _ _).parts = []
    exact fb_parts_nil _ _ _

theorem postMain_kb_of_kb_fail (env : Env) (mem : Memory) (uid msg : String)
    (hkb : exceptFailed env.kbOutcome = true) :
    (postMain env mem uid msg).knowledgeBase = [] := by
  obtain ⟨e, he⟩ : ∃ e, env.kbOutcome = .error e := by
    cases h : env.kbOutcome with
    | error e => exact ⟨e, rfl⟩
    | ok l => rw [h] at hkb; exact absurd hkb (by simp [exceptFailed])
  have hsk : searchKnowledgeBase env msg = [] := by
    unfold searchKnowledgeBase; rw [he]
  unfold postMain
  rw [aiGate, hsk]
  cases hAI : getEnhancedAIResponse env.apiKeyConfigured env.llmOutcome with
  | some air => rfl
  | none =>
    show (getFallbackResponse msg _ _ []).knowledgeBase = []
    exact fb_kb_nil _ _ _

theorem postMain_web_of_web_fail (env : Env) (mem : Memory) (uid msg : String)
    (hweb : ∀ q, exceptFailed (env.webOutcome q) = true) :
    (postMain env mem uid msg).webResults = [] := by
  have hw : ∀ q, searchWebForParts env q = [] :=
    fun q => searchWebForParts_fail env q (hweb q)
  unfold postMain
  rw [aiGate]
  simp only [hw, ite_self, flatten_map_nil, List.nil_append]
  cases hAI : getEnhancedAIResponse env.apiKeyConfigured env.llmOutcome with
  | some air => rfl
  | none =>
    show (getFallbackResponse msg _ (filterAndRank (scoreAllResults [] _ _ _)) _).webResults = []
    exact fb_web_nil _ _ _

theorem postMain_fallback_of_ai_none (env : Env) (mem : Memory) (uid msg : String)
    (hAI : getEnhancedAIResponse env.apiKeyConfigured env.llmOutcome = none) :
    (postMain env mem uid msg).usedFallback = true := by
  unfold postMain
  rw [aiGate, hAI]

/-- C4.  A failure of any external collaborator (database search,
knowledge-base search, web search, LLM call) is caught and degrades the turn
to an empty result set or to the fallback template, without aborting the
request: the response status is 200 for every authenticated non-empty-message
request, whatever the collaborator outcomes.  The only hard failures of the
endpoint are missing authentication (401) and a missing or empty message
(400). -/
theorem C4_failures_degrade (env : Env) (mem : Memory) (body : Body) :
    ((POST env mem none body).status = 401 ∧ (POST env mem none body).memory = mem) ∧
    ∀ (p : UserPayload),
      (POST env mem (some p) (Body.mk none)).status = 400 ∧
      ∀ (msg : String), msg ≠ "" →
        (POST env mem (some p) (Body.mk (some msg))).status = 200 ∧
        (exceptFailed env.dbOutcome = true →
          (POST env mem (some p) (Body.mk (some msg))).parts = []) ∧
        (exceptFailed env.kbOutcome = true →
          (POST env mem (some p) (Body.mk (some msg))).knowledgeBase = []) ∧
        ((∀ q, exceptFailed (env.webOutcome q) = true) →
          (POST env mem (some p) (Body.mk (some msg))).webResults = []) ∧
        (getEnhancedAIResponse env.apiKeyConfigured env.llmOutcome = none →
          (POST env mem (some p) (Body.mk (some msg))).usedFallback = true) := by
  refine ⟨⟨rfl, rfl⟩, ?_⟩
  intro p
  refine ⟨rfl, ?_⟩
  intro msg hm
  have hP : POST env mem (some p) (Body.mk (some msg)) = postMain env mem p.userId msg := by
    unfold POST
    dsimp only
    rw [if_neg hm]
  rw [hP]
  exact ⟨postMain_status env mem p.userId msg,
    fun h => postMain_parts_of_db_fail env mem p.userId msg h,
    fun h => postMain_kb_of_kb_fail env mem p.userId msg h,
    fun h => postMain_web_of_web_fail env mem p.userId msg h,
    fun h => postMain_fallback_of_ai_none env mem p.userId msg h⟩

/-- Witness for C4: with every collaborator failing, an authenticated request
with a non-empty message still completes with status 200, empty result sets
and the fallback template. -/
theorem C4_failures_degrade_witness :
    (POST failEnv [] (some (UserPayload.mk "u1")) (Body.mk (some "brake pads"))).status = 200 ∧
    (POST failEnv [] (some (UserPayload.mk "u1")) (Body.mk (some "brake pads"))).parts = [] ∧
    (POST failEnv [] (some (UserPayload.mk "u1")) (Body.mk (some "brake pads"))).webResults = [] ∧
    (POST failEnv [] (some (UserPayload.mk "u1")) (Body.mk (some "brake pads"))).usedFallback = true := by
  have h := ((C4_failures_degrade failEnv [] (Body.mk (some "brake pads"))).2
    (UserPayload.mk "u1")).2 "brake pads" (by decide)
  exact ⟨h.1, h.2.1 (by decide), h.2.2.2.1 (fun q => rfl), h.2.2.2.2 (by decide)⟩


/-! ## Claim C7: the derived vehicle make never reverts and tracks the
rightmost mention

The key fact is that the make scanner is compositional over the
space-separated concatenation of histories: no vocabulary word contains a
space, so no match crosses a message boundary, and the matches of the
extended text are the matches of the old text followed by the matches of the
extension. -/

/-- A well-formed alternation vocabulary: every word is non-empty and no
character of a word is (case-insensitively) a space. -/
def vocabNoSpace (vocab : List String) : Prop :=
  ∀ p ∈ vocab, p.data ≠ [] ∧ ∀ c ∈ p.data, c.toLower ≠ ' '

theorem makeList_noSpace : vocabNoSpace makeList := by
  unfold vocabNoSpace
  decide

theorem matchVocabHere_cons (p : String) (ps : List String) (l : List Char) :
    matchVocabHere (p :: ps) l =
      if ciStartsWith l p.data && boundAfter (l.drop p.data.length) then
        some ⟨l.take p.data.length⟩
      else matchVocabHere ps l := by
  unfold matchVocabHere
  rw [List.findSome?_cons]
  cases hc : (ciStartsWith l p.data && boundAfter (l.drop p.data.length)) with
  | true => simp [hc]
  | false => simp [hc]

theorem ciStartsWith_append_space (p : List Char) (hp : ∀ c ∈ p, c.toLower ≠ ' ') :
    ∀ (x u : List Char), ciStartsWith (x ++ ' ' :: u) p = ciStartsWith x p := by
  induction p with
  | nil => intro x u; cases x <;> rfl
  | cons b bs ih =>
    intro x u
    cases x with
    | nil =>
      have hb : b.toLower ≠ ' ' := hp b (List.mem_cons_self _ _)
      have hbeq : ((' ' : Char).toLower == b.toLower) = false := by
        rw [show (' ' : Char).toLower = ' ' from rfl]
        exact beq_eq_false_iff_ne.mpr fun he => hb he.symm
      rw [List.nil_append]
      show (((' ' : Char).toLower == b.toLower) && ciStartsWith u bs)
          = ciStartsWith [] (b :: bs)
      rw [hbeq, Bool.false_and]
      rfl
    | cons a as =>
      rw [List.cons_append]
      show ((a.toLower == b.toLower) && ciStartsWith (as ++ ' ' :: u) bs)
          = ((a.toLower == b.toLower) && ciStartsWith as bs)
      rw [ih (fun c hc => hp c (List.mem_cons_of_mem _ hc)) as u]

theorem ciStartsWith_length_le :
    ∀ (p l : List Char), ciStartsWith l p = true → p.length ≤ l.length := by
  intro p
  induction p with
  | nil => intro l _; exact Nat.zero_le _
  | cons b bs ih =>
    intro l h
    cases l with
    | nil => exact absurd h (by simp [ciStartsWith])
    | cons a as =>
      have h2 := (Bool.and_eq_true _ _).mp h
      have h3 := ih as h2.2
      simpa [List.length_cons] using Nat.succ_le_succ h3

theorem boundAfter_append_space (x u : List Char) (n : Nat) (hn : n ≤ x.length) :
    boundAfter ((x ++ ' ' :: u).drop n) = boundAfter (x.drop n) := by
  rw [List.drop_append_eq_append_drop, Nat.sub_eq_zero_of_le hn, List.drop_zero]
  cases hd : x.drop n with
  | nil => rfl
  | cons c cs => rfl

theorem take_append_space (x u : List Char) (n : Nat) (hn : n ≤ x.length) :
    (x ++ ' ' :: u).take n = x.take n := by
  rw [List.take_append_eq_append_take, Nat.sub_eq_zero_of_le hn, List.take_zero,
    List.append_nil]

theorem matchVocabHere_append_space (vocab : List String) (hv : vocabNoSpace vocab) :
    ∀ (x u : List Char), matchVocabHere vocab (x ++ ' ' :: u) = matchVocabHere vocab x := by
  intro x u
  induction vocab with
  | nil => rfl
  | cons p ps ih =>
    have hps : vocabNoSpace ps := fun q hq => hv q (List.mem_cons_of_mem _ hq)
    have hp := hv p (List.mem_cons_self _ _)
    rw [matchVocabHere_cons, matchVocabHere_cons,
      ciStartsWith_append_space p.data hp.2 x u]
    cases hsw : ciStartsWith x p.data with
    | false =>
      simp only [Bool.false_and]
      rw [if_neg (by exact Bool.false_ne_true), if_neg (by exact Bool.false_ne_true)]
      exact ih hps
    | true =>
      have hn : p.data.length ≤ x.length := ciStartsWith_length_le p.data x hsw
      rw [boundAfter_append_space x u p.data.length hn,
        take_append_space x u p.data.length hn]
      cases hba : boundAfter (x.drop p.data.length) with
      | true => rfl
      | false =>
        rw [if_neg (by simp), if_neg (by simp)]
        exact ih hps

theorem matchVocabHere_nil (vocab : List String) (hv : vocabNoSpace vocab) :
    matchVocabHere vocab [] = none := by
  induction vocab with
  | nil => rfl
  | cons p ps ih =>
    have hps : vocabNoSpace ps := fun q hq => hv q (List.mem_cons_of_mem _ hq)
    have hp := (hv p (List.mem_cons_self _ _)).1
    have hsw : ciStartsWith [] p.data = false := by
      cases hd : p.data with
      | nil => exact absurd hd hp
      | cons b bs => rfl
    rw [matchVocabHere_cons, hsw, Bool.false_and,
      if_neg (by exact Bool.false_ne_true)]
    exact ih hps

theorem matchVocabHere_space_head (vocab : List String) (hv : vocabNoSpace vocab)
    (u : List Char) : matchVocabHere vocab (' ' :: u) = none := by
  have h := matchVocabHere_append_space vocab hv [] u
  rw [List.nil_append] at h
  rw [h]
  exact matchVocabHere_nil vocab hv

theorem scanVocabAux_cons (vocab : List String) (prevW : Bool) (c : Char)
    (t : List Char) :
    scanVocabAux vocab prevW (c :: t) =
      match (if prevW then none else matchVocabHere vocab (c :: t)) with
      | some m => m :: scanVocabAux vocab (wordChar c) t
      | none => scanVocabAux vocab (wordChar c) t := rfl

theorem scanVocabAux_append_space (vocab : List String) (hv : vocabNoSpace vocab) :
    ∀ (x : List Char) (prevW : Bool) (u : List Char),
      scanVocabAux vocab prevW (x ++ ' ' :: u) =
        scanVocabAux vocab prevW x ++ scanVocabAux vocab false u := by
  intro x
  induction x with
  | nil =>
    intro prevW u
    rw [List.nil_append, scanVocabAux_cons]
    cases prevW with
    | true =>
      rw [if_pos rfl]
      show scanVocabAux vocab (wordChar ' ') u = scanVocabAux vocab true [] ++ scanVocabAux vocab false u
      rw [show wordChar ' ' = false from rfl]
      rfl
    | false =>
      rw [if_neg (by exact Bool.false_ne_true), matchVocabHere_space_head vocab hv u]
      show scanVocabAux vocab (wordChar ' ') u = scanVocabAux vocab false [] ++ scanVocabAux vocab false u
      rw [show wordChar ' ' = false from rfl]
      rfl
  | cons c x' ih =>
    intro prevW u
    rw [List.cons_append, scanVocabAux_cons, scanVocabAux_cons]
    have hmv := matchVocabHere_append_space vocab hv (c :: x') u
    rw [List.cons_append] at hmv
    rw [hmv]
    cases prevW with
    | true =>
      exact ih (wordChar c) u
    | false =>
      cases hm : matchVocabHere vocab (c :: x') with
      | some m =>
        show m :: scanVocabAux vocab (wordChar c) (x' ++ ' ' :: u)
            = (m :: scanVocabAux vocab (wordChar c) x') ++ scanVocabAux vocab false u
        rw [List.cons_append, ih (wordChar c) u]
      | none =>
        show scanVocabAux vocab (wordChar c) (x' ++ ' ' :: u)
            = scanVocabAux vocab (wordChar c) x' ++ scanVocabAux vocab false u
        exact ih (wordChar c) u

theorem matchVocabHere_some_ne_empty (vocab : List String) (hv : vocabNoSpace vocab)
    (l : List Char) (m : String) (h : matchVocabHere vocab l = some m) : m ≠ "" := by
  induction vocab with
  | nil => exact Option.noConfusion h
  | cons p ps ih =>
    have hps : vocabNoSpace ps := fun q hq => hv q (List.mem_cons_of_mem _ hq)
    have hp := hv p (List.mem_cons_self _ _)
    rw [matchVocabHere_cons] at h
    split at h
    next hcond =>
      have hm : (⟨l.take p.data.length⟩ : String) = m := Option.some.inj h
      have hsw : ciStartsWith l p.data = true := ((Bool.and_eq_true _ _).mp hcond).1
      have hn := ciStartsWith_length_le p.data l hsw
      have hlen : 1 ≤ p.data.length := by
        rw [show (1 : Nat) ≤ p.data.length ↔ p.data ≠ [] from by
          cases p.data <;> simp]
        exact hp.1
      intro hcontra
      rw [hcontra] at hm
      have hdata : l.take p.data.length = [] := congrArg String.data hm
      rcases List.take_eq_nil_iff.mp hdata with h0 | h0
      · omega
      · rw [h0] at hn
        have h00 : p.data.length ≤ 0 := hn
        omega
    next => exact ih hps h

theorem scanVocabAux_elem_ne_empty (vocab : List String) (hv : vocabNoSpace vocab) :
    ∀ (l : List Char) (prevW : Bool) (m : String),
      m ∈ scanVocabAux vocab prevW l → m ≠ "" := by
  intro l
  induction l with
  | nil =>
    intro prevW m hm
    rw [show scanVocabAux vocab prevW [] = [] from rfl] at hm
    exact absurd hm (List.not_mem_nil m)
  | cons c t ih =>
    intro prevW m hm
    rw [scanVocabAux_cons] at hm
    cases prevW with
    | true =>
      rw [if_pos rfl] at hm
      exact ih _ m hm
    | false =>
      rw [if_neg (by exact Bool.false_ne_true)] at hm
      cases hmv : matchVocabHere vocab (c :: t) with
      | none => rw [hmv] at hm; exact ih _ m hm
      | some m' =>
        rw [hmv] at hm
        rcases List.mem_cons.mp hm with hEq | hMem
        · subst hEq; exact matchVocabHere_some_ne_empty vocab hv _ m hmv
        · exact ih _ m hMem

theorem getLastD_default_irrel {α : Type} :
    ∀ (l : List α), l ≠ [] → ∀ (d1 d2 : α), l.getLastD d1 = l.getLastD d2 := by
  intro l
  induction l with
  | nil => intro h; exact absurd rfl h
  | cons a t _ =>
    intro _ d1 d2
    rw [List.getLastD_cons, List.getLastD_cons]

theorem getLastD_append_right {α : Type} (l1 l2 : List α) (d : α) (h : l2 ≠ []) :
    (l1 ++ l2).getLastD d = l2.getLastD d := by
  induction l1 generalizing d with
  | nil => rfl
  | cons a t ih =>
    rw [List.cons_append, List.getLastD_cons, ih a]
    exact getLastD_default_irrel l2 h a d

theorem getLastD_mem {α : Type} (l : List α) (d : α) : l ≠ [] → l.getLastD d ∈ l := by
  induction l generalizing d with
  | nil => intro h; exact absurd rfl h
  | cons a t ih =>
    intro _
    rw [List.getLastD_cons]
    cases ht : t with
    | nil => subst ht; simp
    | cons b bs =>
      subst ht
      exact List.mem_cons_of_mem _ (ih a (List.cons_ne_nil b bs))

theorem joinSpace_append :
    ∀ (a b : List (List Char)), a ≠ [] → b ≠ [] →
      joinSpace (a ++ b) = joinSpace a ++ ' ' :: joinSpace b := by
  intro a
  induction a with
  | nil => intro b h _; exact absurd rfl h
  | cons x a' ih =>
    intro b _ hb
    cases a' with
    | nil =>
      cases b with
      | nil => exact absurd rfl hb
      | cons y b' => rfl
    | cons x' a'' =>
      have h1 : joinSpace ((x :: x' :: a'') ++ b)
          = x ++ ' ' :: joinSpace ((x' :: a'') ++ b) := rfl
      rw [h1, ih b (List.cons_ne_nil x' a'') hb,
        show joinSpace (x :: x' :: a'') = x ++ ' ' :: joinSpace (x' :: a'') from rfl,
        List.append_assoc, List.cons_append]

theorem allTextChars_append (msgs ext : List Msg) (h1 : msgs ≠ []) (h2 : ext ≠ []) :
    allTextChars (msgs ++ ext) = allTextChars msgs ++ ' ' :: allTextChars ext := by
  unfold allTextChars
  have hjoin := joinSpace_append (msgs.map fun m => m.content.data)
    (ext.map fun m => m.content.data) (by simpa using h1) (by simpa using h2)
  rw [List.map_append, hjoin, List.map_append, List.map_cons]
  rfl

theorem extract_vehicleMake (msgs : List Msg) :
    (extractUserPreferences msgs).vehicleMake
      = (scanVocab makeList (allTextChars msgs)).getLastD "" := rfl

/-- C7.  Once a recognized make has been derived from a history, it never
reverts to empty under further messages; it stays unchanged as long as the
extension mentions no recognized make, and otherwise becomes exactly the make
appearing latest (rightmost) in the concatenated text — that is, the last
match within the extension. -/
theorem C7_make_monotone (msgs ext : List Msg)
    (h : (extractUserPreferences msgs).vehicleMake ≠ "") :
    (extractUserPreferences (msgs ++ ext)).vehicleMake ≠ "" ∧
    (scanVocab makeList (allTextChars ext) = [] →
      (extractUserPreferences (msgs ++ ext)).vehicleMake
        = (extractUserPreferences msgs).vehicleMake) ∧
    (scanVocab makeList (allTextChars ext) ≠ [] →
      (extractUserPreferences (msgs ++ ext)).vehicleMake
        = (scanVocab makeList (allTextChars ext)).getLastD "") := by
  by_cases hext : ext = []
  · subst hext
    rw [List.append_nil]
    refine ⟨h, fun _ => rfl, fun hne => absurd rfl hne⟩
  · by_cases hmsgs : msgs = []
    · subst hmsgs
      exact absurd rfl h
    · rw [extract_vehicleMake] at h
      have hsplit := allTextChars_append msgs ext hmsgs hext
      have hscan : scanVocab makeList (allTextChars (msgs ++ ext))
          = scanVocab makeList (allTextChars msgs)
            ++ scanVocab makeList (allTextChars ext) := by
        unfold scanVocab
        rw [hsplit]
        exact scanVocabAux_append_space makeList makeList_noSpace _ false _
      refine ⟨?_, ?_, ?_⟩
      · rw [extract_vehicleMake, hscan]
        by_cases hB : scanVocab makeList (allTextChars ext) = []
        · rw [hB, List.append_nil]
          exact h
        · rw [getLastD_append_right _ _ _ hB]
          exact scanVocabAux_elem_ne_empty makeList makeList_noSpace
            (allTextChars ext) false _ (getLastD_mem _ _ hB)
      · intro hB
        rw [extract_vehicleMake, extract_vehicleMake, hscan, hB, List.append_nil]
      · intro hB
        rw [extract_vehicleMake, hscan, getLastD_append_right _ _ _ hB]

/-- Witness for C7: after "my honda is great", the extension "also got a
yamaha ok" keeps the make non-empty and moves it to the rightmost mention
(the last make matched inside the extension). -/
theorem C7_make_monotone_witness :
    (extractUserPreferences ([Msg.mk "user" "my honda is great" ""] ++
        [Msg.mk "user" "also got a yamaha ok" ""])).vehicleMake ≠ "" ∧
    (extractUserPreferences ([Msg.mk "user" "my honda is great" ""] ++
        [Msg.mk "user" "also got a yamaha ok" ""])).vehicleMake
      = (scanVocab makeList
          (allTextChars [Msg.mk "user" "also got a yamaha ok" ""])).getLastD "" := by
  have h := C7_make_monotone [Msg.mk "user" "my honda is great" ""]
    [Msg.mk "user" "also got a yamaha ok" ""] (by decide)
  exact ⟨h.1, h.2.2 (by decide)⟩

end ChatRoute
